import Mathlib

/-!
Verification development for the BTC backtest engine (`run_backtest.py`).

Shallow embedding conventions:
* Machine floats are modelled as `ℚ`; a pandas `NaN` cell is modelled as
  `none : Option ℚ` (all comparisons against `NaN` are `False` in the source,
  which the `o*`/`c*` comparison helpers below reproduce).
* Timestamps are integers counting hours since an arbitrary epoch; the
  source's `tz_convert` from GMT+8 to UTC subtracts 8 hours, and
  `r.Index.hour` is the timestamp modulo 24.
* Bollinger bands involve a square root (`std20`); the engine only ever
  compares prices against `sma ± 2·std`, so the embedding keeps the sample
  variance `var20` and decides those comparisons exactly by squaring
  (justified by the lemmas `lt_lowerBand_iff_real` / `gt_upperBand_iff_real`).
* A small IEEE-style value type `FVal` models the float artifacts of the RSI
  division when the average loss is zero.
-/

namespace Btc

/-- Strategy parameters, verbatim from the configuration block of
`run_backtest.py` (`INITIAL_EQ`, `RISK_PCT_INIT`, `STOP_PCT`, `ATR_MULT`). -/
def INITIAL_EQ : ℚ := 100000

def RISK_PCT_INIT : ℚ := 5 / 100

def STOP_PCT : ℚ := 5 / 1000

def ATR_MULT : ℚ := 3

/-- The per-trade `risk_amount = INITIAL_EQ * RISK_PCT_INIT` (computed once, before the walk). -/
def riskAmount : ℚ := INITIAL_EQ * RISK_PCT_INIT

/-- Membership in `ASIA_HRS = set(range(0, 12))` as a predicate on the hour-of-day. -/
def asiaHour (h : ℤ) : Bool := decide (0 ≤ h ∧ h < 12)

/-- Membership in `US_HRS = set(range(15, 21))` as a predicate on the hour-of-day. -/
def usHour (h : ℤ) : Bool := decide (15 ≤ h ∧ h < 21)

/-- Hour-of-day of a timestamp counted in hours since an epoch. -/
def hourOf (t : ℤ) : ℤ := t % 24

/-- One raw OHLC row as loaded from the CSV (GMT+8 timestamps); only the
fields the engine reads are kept. -/
structure RawBar where
  time : ℤ
  high : ℚ
  low : ℚ
  close : ℚ
  deriving DecidableEq, Repr

/-- One bar of the indicator-enriched series handed to `run_backtest`:
the raw fields plus the derived indicator columns (as `Option ℚ`, `none`
standing for `NaN`). `var20` is the sample variance behind `std20`. -/
structure IBar where
  time : ℤ
  high : ℚ
  low : ℚ
  close : ℚ
  sma20 : Option ℚ
  var20 : Option ℚ
  atr20 : Option ℚ
  atrMedAll : Option ℚ
  rsi14 : Option ℚ
  high3h : Option ℚ
  low3h : Option ℚ
  deriving DecidableEq, Repr

/-! ### NaN-aware comparisons (any comparison with NaN is False) -/

/-- Comparison `a > b` on two possibly-NaN values. -/
def oGtQ : Option ℚ → Option ℚ → Bool
  | some a, some b => decide (b < a)
  | _, _ => false

/-- Comparison `a ≤ b` on two possibly-NaN values. -/
def oLeQ : Option ℚ → Option ℚ → Bool
  | some a, some b => decide (a ≤ b)
  | _, _ => false

/-- possibly-NaN `a > c` for a concrete constant `c`. -/
def oGtC (a : Option ℚ) (c : ℚ) : Bool :=
  match a with
  | some a => decide (c < a)
  | none => false

/-- possibly-NaN `a < c` for a concrete constant `c`. -/
def oLtC (a : Option ℚ) (c : ℚ) : Bool :=
  match a with
  | some a => decide (a < c)
  | none => false

/-- concrete `c >` possibly-NaN `a`. -/
def cGtO (c : ℚ) (a : Option ℚ) : Bool :=
  match a with
  | some a => decide (a < c)
  | none => false

/-- concrete `c <` possibly-NaN `a`. -/
def cLtO (c : ℚ) (a : Option ℚ) : Bool :=
  match a with
  | some a => decide (c < a)
  | none => false

/-- Decides `close < lower_band` where `lower_band = sma − 2·√var`
(`NaN` band compares `False`). Exactness is proved in
`lt_lowerBand_iff_real`. -/
def ltLowerBand (c : ℚ) : Option ℚ → Option ℚ → Bool
  | some s, some v => decide (c < s ∧ 4 * v < (s - c) ^ 2)
  | _, _ => false

/-- Decides `close > upper_band` where `upper_band = sma + 2·√var`. -/
def gtUpperBand (c : ℚ) : Option ℚ → Option ℚ → Bool
  | some s, some v => decide (s < c ∧ 4 * v < (c - s) ^ 2)
  | _, _ => false

/-! ### Generic stable insertion sort by an integer key
(embeds `DataFrame.sort_index`). -/

/-- Insert into a key-sorted list, keeping earlier elements first on ties. -/
def insertK {α : Type} (key : α → ℤ) (x : α) : List α → List α
  | [] => [x]
  | y :: ys => if key x ≤ key y then x :: y :: ys else y :: insertK key x ys

/-- Stable insertion sort by key. -/
def sortK {α : Type} (key : α → ℤ) (l : List α) : List α :=
  l.foldr (insertK key) []

/-- The loader `load_data`: read the rows and sort by timestamp.  The source performs no
uniqueness or monotonicity validation whatsoever (lines 36-41 of
`run_backtest.py`): it just sorts. -/
def loadData (rows : List RawBar) : List RawBar := sortK RawBar.time rows

/-! ### Indicator engine (`calculate_indicators`) -/

/-- Close of row `i` (only consulted in-bounds). -/
def closeAt (l : List RawBar) (i : ℕ) : ℚ := ((l.get? i).map RawBar.close).getD 0

/-- High of row `i`. -/
def highAt (l : List RawBar) (i : ℕ) : ℚ := ((l.get? i).map RawBar.high).getD 0

/-- Low of row `i`. -/
def lowAt (l : List RawBar) (i : ℕ) : ℚ := ((l.get? i).map RawBar.low).getD 0

/-- True Range of row `i`: `max(high-low, |high-prev_close|, |low-prev_close|)`.
At row 0 the shifted previous close is NaN and the row-wise `max` skips NaN,
leaving `high - low`. -/
def trAt (l : List RawBar) (i : ℕ) : ℚ :=
  match l.get? i with
  | none => 0
  | some b =>
    match i with
    | 0 => b.high - b.low
    | Nat.succ j =>
      match l.get? j with
      | none => b.high - b.low
      | some pb => max (b.high - b.low) (max |b.high - pb.close| |b.low - pb.close|)

/-- Column `atr20`: 14-bar rolling mean of True Range (`NaN` until 14 rows exist). -/
def atr20At (l : List RawBar) (i : ℕ) : Option ℚ :=
  if 13 ≤ i ∧ i < l.length then
    some (((List.range 14).map (fun k => trAt l (i - 13 + k))).sum / 14)
  else none

/-- pandas median of a list of (non-NaN) values: middle element after
sorting, or the mean of the two middle elements; `NaN` on the empty list. -/
def medianQ (xs : List ℚ) : Option ℚ :=
  match xs with
  | [] => none
  | _ :: _ =>
    let s := sortQ xs
    if xs.length % 2 = 1 then s.get? (xs.length / 2)
    else match s.get? (xs.length / 2 - 1), s.get? (xs.length / 2) with
      | some a, some b => some ((a + b) / 2)
      | _, _ => none
where
  /-- insertion sort on plain rationals. -/
  sortQ (xs : List ℚ) : List ℚ :=
    xs.foldr insQ []
  /-- sorted insert on plain rationals. -/
  insQ (x : ℚ) : List ℚ → List ℚ
    | [] => [x]
    | y :: ys => if x ≤ y then x :: y :: ys else y :: insQ x ys

/-- Column `atr20_median_all`: expanding (all-history-to-date) median of `atr20`,
skipping the NaN warm-up rows. -/
def expMedAt (l : List RawBar) (i : ℕ) : Option ℚ :=
  medianQ ((List.range (i + 1)).filterMap (atr20At l))

/-- The median `df['atr20'].median()` over the whole series (the scalar `atr_med`
computed in `main` and passed to `run_backtest`). -/
def atrGlobalMedian (l : List RawBar) : Option ℚ :=
  medianQ ((List.range l.length).filterMap (atr20At l))

/-- Column `sma20`: 20-bar rolling mean of close. -/
def sma20At (l : List RawBar) (i : ℕ) : Option ℚ :=
  if 19 ≤ i ∧ i < l.length then
    some (((List.range 20).map (fun k => closeAt l (i - 19 + k))).sum / 20)
  else none

/-- Sample variance (ddof = 1) of the 20-bar close window; `std20 = √var20`. -/
def var20At (l : List RawBar) (i : ℕ) : Option ℚ :=
  match sma20At l i with
  | none => none
  | some m =>
    some (((List.range 20).map (fun k => (closeAt l (i - 19 + k) - m) ^ 2)).sum / 19)

/-- Price change `close.diff()` at row `i` (NaN at row 0). -/
def deltaAt (l : List RawBar) (i : ℕ) : Option ℚ :=
  match i with
  | 0 => none
  | Nat.succ j => if i < l.length then some (closeAt l i - closeAt l j) else none

/-- RSI from the two 14-bar averages, with the source's unguarded float
semantics for a zero average loss: `gain/0 = +inf` collapses
`100 - 100/(1 + inf)` to `100`, and `0/0 = NaN` propagates to `NaN`
(see `rsi14f` and the claim C9 theorem for the IEEE-step justification). -/
def rsiFromAverages (g l : ℚ) : Option ℚ :=
  if l = 0 then (if g = 0 then none else some 100)
  else some (100 - 100 / (1 + g / l))

/-- Column `rsi14` at row `i`: 14-bar rolling averages of clipped gains and losses
(NaN until row 14 because the first diff is NaN). -/
def rsi14At (l : List RawBar) (i : ℕ) : Option ℚ :=
  if 14 ≤ i ∧ i < l.length then
    let ds := (List.range 14).map (fun k => ((deltaAt l (i - 13 + k)).getD 0))
    rsiFromAverages ((ds.map (fun d => max d 0)).sum / 14)
      ((ds.map (fun d => max (-d) 0)).sum / 14)
  else none

/-- Column `high_3h`: max high of the 3 rows strictly before row `i` (shifted). -/
def high3hAt (l : List RawBar) (i : ℕ) : Option ℚ :=
  if 3 ≤ i ∧ i < l.length then
    some (max (highAt l (i - 3)) (max (highAt l (i - 2)) (highAt l (i - 1))))
  else none

/-- Column `low_3h`: min low of the 3 rows strictly before row `i`. -/
def low3hAt (l : List RawBar) (i : ℕ) : Option ℚ :=
  if 3 ≤ i ∧ i < l.length then
    some (min (lowAt l (i - 3)) (min (lowAt l (i - 2)) (lowAt l (i - 1))))
  else none

/-- The function `calculate_indicators`: the input series enriched, row by row, with the
indicator columns the simulation walk reads. -/
def calculateIndicators (l : List RawBar) : List IBar :=
  (List.range l.length).filterMap fun i =>
    (l.get? i).map fun b =>
      { time := b.time, high := b.high, low := b.low, close := b.close
        sma20 := sma20At l i, var20 := var20At l i, atr20 := atr20At l i
        atrMedAll := expMedAt l i, rsi14 := rsi14At l i
        high3h := high3hAt l i, low3h := low3hAt l i }

/-! ### Position state machine (`run_backtest`, lines 78-161) -/

/-- Trade direction. -/
inductive Side where
  | long
  | short
  deriving DecidableEq, Repr

/-- The open position dictionary (`open_trade`), full-precision size. -/
structure Position where
  side : Side
  entry_time : ℤ
  entry_price : ℚ
  stop : ℚ
  target : ℚ
  size : ℚ
  deriving DecidableEq, Repr

/-- A closed-trade record as appended to `trade_log`: note that the
`size` field is `int(open_trade["size"])` (truncated) while `pnl` is
computed from the full-precision size. -/
structure Trade where
  side : Side
  entry_time : ℤ
  entry_price : ℚ
  stop : ℚ
  target : ℚ
  size : ℤ
  exit_time : ℤ
  exit_price : ℚ
  pnl : ℚ
  deriving DecidableEq, Repr

/-- Python `int()` applied to a rational: truncation toward zero. -/
def pyInt (q : ℚ) : ℤ := if 0 ≤ q then ⌊q⌋ else ⌈q⌉

/-- The mutable loop state of the simulation walk. -/
structure SimState where
  equity : ℚ
  openTrade : Option Position
  log : List Trade
  deriving DecidableEq, Repr

/-- Initial state: `equity = INITIAL_EQ`, no open trade, empty log. -/
def initState : SimState := ⟨INITIAL_EQ, none, []⟩

/-- Condition `long_mr = (r.close < r.lower_band) and (r.rsi14 < 30)`. -/
def longMR (r : IBar) : Bool := ltLowerBand r.close r.sma20 r.var20 && oLtC r.rsi14 30

/-- Condition `short_mr = (r.close > r.upper_band) and (r.rsi14 > 70)`. -/
def shortMR (r : IBar) : Bool := gtUpperBand r.close r.sma20 r.var20 && oGtC r.rsi14 70

/-- Condition `long_bo = (r.close > r.high_3h) and (r.rsi14 > 60)`. -/
def longBO (r : IBar) : Bool := cGtO r.close r.high3h && oGtC r.rsi14 60

/-- Condition `short_bo = (r.close < r.low_3h) and (r.rsi14 < 40)`. -/
def shortBO (r : IBar) : Bool := cLtO r.close r.low3h && oLtC r.rsi14 40

/-- The entry decision: fired iff any of the four conditions holds, with
side long iff `long_mr or long_bo` (the source's ordering). -/
def entrySignal (r : IBar) : Option Side :=
  if longMR r || longBO r || shortMR r || shortBO r then
    some (if longMR r || longBO r then Side.long else Side.short)
  else none

/-- Construction of the opened position (lines 106-122): entry at close,
stop at `entry·(1 ∓ STOP_PCT)`, target at `entry ± ATR_MULT·atr20`, size
`risk_amount / unit_risk` with the explicit zero-unit-risk fallback to 0. -/
def openPos (r : IBar) (sd : Side) (atrv : ℚ) : Position :=
  let entry := r.close
  let stop := if sd = Side.long then entry * (1 - STOP_PCT) else entry * (1 + STOP_PCT)
  let target := if sd = Side.long then entry + ATR_MULT * atrv else entry - ATR_MULT * atrv
  let unitRisk := |entry - stop|
  let size := if 0 < unitRisk then riskAmount / unitRisk else 0
  ⟨sd, r.time, entry, stop, target, size⟩

/-- Exit resolution for one bar with an open position (lines 126-140):
session force-exit first, else stop before target, sides mirrored. -/
def exitPrice (p : Position) (r : IBar) : Option ℚ :=
  if usHour (hourOf r.time) && !asiaHour (hourOf r.time) then some r.close
  else if p.side = Side.long then
    if r.low ≤ p.stop then some p.stop
    else if p.target ≤ r.high then some p.target
    else none
  else
    if p.stop ≤ r.high then some p.stop
    else if r.low ≤ p.target then some p.target
    else none

/-- ClosedTrade record emission (lines 142-157): P&L from the
full-precision size, logged `size` truncated by `int()`. -/
def closeTrade (p : Position) (t : ℤ) (e : ℚ) : Trade :=
  let pnl := (if p.side = Side.long then e - p.entry_price else p.entry_price - e) * p.size
  ⟨p.side, p.entry_time, p.entry_price, p.stop, p.target, pyInt p.size, t, e, pnl⟩

/-- One iteration of the walk (lines 93-161): skip bars whose `sma20` or
`atr20` is NaN; when flat, enter iff the session and volatility gates and
an entry condition hold; when in position, resolve the exit. -/
def step (atrMed : Option ℚ) (s : SimState) (r : IBar) : SimState :=
  if r.sma20.isNone || r.atr20.isNone then s
  else
    match s.openTrade with
    | none =>
      if asiaHour (hourOf r.time) && oGtQ r.atr20 atrMed then
        match r.atr20, entrySignal r with
        | some a, some sd => { s with openTrade := some (openPos r sd a) }
        | _, _ => s
      else s
    | some p =>
      match exitPrice p r with
      | some e =>
        { equity := s.equity + (closeTrade p r.time e).pnl
          openTrade := none
          log := s.log ++ [closeTrade p r.time e] }
      | none => s

/-- The GMT+8 → UTC index conversion applied at the top of `run_backtest`. -/
def shiftUTC (b : IBar) : IBar := { b with time := b.time - 8 }

/-- The function `run_backtest`: convert the index to UTC, re-sort, and fold the walk
over the bars from the initial state. -/
def runBacktest (df : List IBar) (atrMed : Option ℚ) : SimState :=
  (sortK IBar.time (df.map shiftUTC)).foldl (step atrMed) initState

/-- The `main` pipeline around the walk: load (sort) the rows, compute the
indicator series, and run the backtest with the scalar full-series ATR
median `df['atr20'].median()` as the volatility threshold. -/
def mainPipeline (rows : List RawBar) : SimState :=
  let raw := loadData rows
  runBacktest (calculateIndicators raw) (atrGlobalMedian raw)

/-! ### Metrics aggregation pieces referenced by the claims -/

/-- Running totals `init + p₁, init + p₁ + p₂, …` (`np.cumsum` offset by
the initial capital). -/
def cumsumFrom (init : ℚ) : List ℚ → List ℚ
  | [] => []
  | p :: ps => (init + p) :: cumsumFrom (init + p) ps

/-- The curve `eq_array = INITIAL_EQ + np.cumsum(pnl_history)`. -/
def eqArray (pnls : List ℚ) : List ℚ := cumsumFrom INITIAL_EQ pnls

/-- Python `list[-n:]`: the last `n` elements (whole list when shorter). -/
def lastN {α : Type} (n : ℕ) (l : List α) : List α := l.drop (l.length - n)

/-- The index-based equity curve emitted for charting:
`[float(x) for x in list(eq_array)[-500:]]`. -/
def equityCurve (log : List Trade) : List ℚ := lastN 500 (eqArray (log.map Trade.pnl))

/-- The cutoff origin `now = trade_df['exit_time_dt'].max()` (latest exit timestamp). -/
def maxExit : List Trade → ℤ
  | [] => 0
  | t :: ts => ts.foldl (fun m x => max m x.exit_time) t.exit_time

/-- The windowed trade subset: trades with
`exit_time ≥ now − Timedelta(days=d)` (timestamps in hours, so `d` days
is `24·d` hours). -/
def windowTrades (log : List Trade) (days : ℤ) : List Trade :=
  log.filter fun t => decide (maxExit log - days * 24 ≤ t.exit_time)

/-! ### A tiny IEEE-754-style value model for the RSI division artifact.
Finite values carry exact rationals; the operations below implement the
IEEE special-value rules exactly for the cases the RSI expression can
reach (division by zero, infinity propagation, NaN propagation) — no
rounding is involved in those special-value rules. -/

/-- A float value: finite (exact rational), +infinity, −infinity, or NaN. -/
inductive FVal where
  | fin (q : ℚ)
  | inf
  | ninf
  | nan
  deriving DecidableEq, Repr

/-- IEEE division for the value shapes reachable in the RSI expression:
finite/0 gives a signed infinity (NaN for 0/0), finite/±inf gives 0. -/
def fdiv : FVal → FVal → FVal
  | FVal.fin a, FVal.fin b =>
    if b = 0 then
      if 0 < a then FVal.inf else if a < 0 then FVal.ninf else FVal.nan
    else FVal.fin (a / b)
  | FVal.fin _, FVal.inf => FVal.fin 0
  | FVal.fin _, FVal.ninf => FVal.fin 0
  | FVal.inf, FVal.fin b => if 0 ≤ b then FVal.inf else FVal.ninf
  | FVal.ninf, FVal.fin b => if 0 ≤ b then FVal.ninf else FVal.inf
  | _, _ => FVal.nan

/-- IEEE addition for the reachable shapes. -/
def fadd : FVal → FVal → FVal
  | FVal.fin a, FVal.fin b => FVal.fin (a + b)
  | FVal.fin _, FVal.inf => FVal.inf
  | FVal.inf, FVal.fin _ => FVal.inf
  | FVal.fin _, FVal.ninf => FVal.ninf
  | FVal.ninf, FVal.fin _ => FVal.ninf
  | FVal.inf, FVal.inf => FVal.inf
  | FVal.ninf, FVal.ninf => FVal.ninf
  | _, _ => FVal.nan

/-- IEEE subtraction for the reachable shapes. -/
def fsub : FVal → FVal → FVal
  | FVal.fin a, FVal.fin b => FVal.fin (a - b)
  | FVal.fin _, FVal.inf => FVal.ninf
  | FVal.inf, FVal.fin _ => FVal.inf
  | FVal.fin _, FVal.ninf => FVal.inf
  | FVal.ninf, FVal.fin _ => FVal.ninf
  | _, _ => FVal.nan

/-- Whether a float value is finite. -/
def FVal.isFinite : FVal → Bool
  | FVal.fin _ => true
  | _ => false

/-- The float-to-possibly-NaN-rational view used by the `Option ℚ`
embedding of the indicator columns (infinities never reach a stored
column in this engine, but are mapped to `none` for totality). -/
def fvalToOpt : FVal → Option ℚ
  | FVal.fin q => some q
  | _ => none

/-- The rsi14 expression of line 67, verbatim and unguarded:
`100 - 100 / (1 + gain / loss)`. -/
def rsi14f (g l : FVal) : FVal :=
  fsub (FVal.fin 100) (fdiv (FVal.fin 100) (fadd (FVal.fin 1) (fdiv g l)))

/-- The per-trade shape invariant of the simulation log relative to a bar
list: exits come strictly after entries, and the exit price is the stop,
the target, or the close of a session-exit bar of the list. -/
def TradeOK (bars : List IBar) (t : Trade) : Prop :=
  t.entry_time < t.exit_time ∧
  (t.exit_price = t.stop ∨ t.exit_price = t.target ∨
    ∃ x ∈ bars, x.time = t.exit_time ∧ x.close = t.exit_price ∧
      (usHour (hourOf x.time) && !asiaHour (hourOf x.time)) = true)

/-! ### Concrete inputs used by counterexamples and witnesses -/

/-- A 28-row OHLC series (hourly GMT+8 timestamps 0..27, fields
`time, high, low, close`): wide-range early bars make the ATR start high
and decay, so that at row 19 the ATR is below its expanding median yet
above the full-series median; row 19 is a breakout bar whose UTC hour
(19−8 = 11) is in the Asia session. -/
def exRaw : List RawBar := [
  ⟨0, 128, 72, 100⟩, ⟨1, 129, 73, 101⟩, ⟨2, 130, 74, 102⟩, ⟨3, 131, 75, 103⟩,
  ⟨4, 132, 76, 104⟩, ⟨5, 133, 77, 105⟩, ⟨6, 134, 78, 106⟩, ⟨7, 135, 79, 107⟩,
  ⟨8, 136, 80, 108⟩, ⟨9, 137, 81, 109⟩,
  ⟨10, 109, 107, 108⟩, ⟨11, 110, 108, 109⟩, ⟨12, 111, 109, 110⟩, ⟨13, 112, 110, 111⟩,
  ⟨14, 113, 111, 112⟩, ⟨15, 114, 112, 113⟩, ⟨16, 115, 113, 114⟩, ⟨17, 116, 114, 115⟩,
  ⟨18, 117, 115, 116⟩,
  ⟨19, 121, 119, 120⟩,
  ⟨20, 122, 120, 121⟩, ⟨21, 123, 121, 122⟩, ⟨22, 124, 122, 123⟩, ⟨23, 125, 123, 124⟩,
  ⟨24, 126, 124, 125⟩, ⟨25, 127, 125, 126⟩, ⟨26, 128, 126, 127⟩, ⟨27, 129, 127, 128⟩ ]

/-- Two rows with out-of-order timestamps. -/
def exOOO : List RawBar := [⟨5, 1, 0, 1⟩, ⟨3, 1, 0, 1⟩]

/-- Two rows sharing the same timestamp. -/
def exDup : List RawBar := [⟨4, 2, 1, 1⟩, ⟨4, 3, 2, 2⟩]

/-- An indicator bar (GMT+8 time 9, so UTC hour 1, in the Asia session)
whose breakout-long condition fires. Fields: time, high, low, close,
sma20, var20, atr20, atrMedAll, rsi14, high3h, low3h. -/
def wEntryBar : IBar :=
  ⟨9, 101, 99, 100, some 100, some 1, some 5, some 5, some 70, some 90, some 80⟩

/-- A degenerate-entry bar with close 0 (so zero unit risk) whose
breakout-long condition still fires. -/
def wZeroBar : IBar :=
  ⟨9, 1, -1, 0, some 0, some 0, some 5, none, some 61, some (-1), none⟩

/-- An open long position: entry 100, stop 99.5, target 106, fractional
size 25000/3. -/
def wPos : Position := ⟨Side.long, 0, 100, 199 / 2, 106, 25000 / 3⟩

/-- A walk state holding `wPos`. -/
def wState : SimState := ⟨INITIAL_EQ, some wPos, []⟩

/-- A bar (UTC hour 2, outside both session sets) on which both the stop
and the target of `wPos` are intrabar-reachable. -/
def wExitBar : IBar :=
  ⟨2, 107, 99, 103, some 100, some 1, some 5, none, none, none, none⟩

/-- A two-bar run: an Asia-session entry bar (GMT+8 time 9 → UTC hour 1)
then a US-session bar (GMT+8 time 23 → UTC hour 15) forcing the exit. -/
def wRun : List IBar :=
  [⟨9, 101, 99, 100, some 100, some 1, some 5, none, some 70, some 90, some 80⟩,
   ⟨23, 111, 109, 110, some 100, some 1, some 5, none, none, none, none⟩]

/-- The single trade `wRun` produces. -/
def wTrade : Trade := ⟨Side.long, 1, 100, 199 / 2, 115, 10000, 15, 110, 100000⟩

/-- A one-trade log. -/
def wLog : List Trade := [wTrade]

/-! ### Faithfulness of the squared band comparisons -/

/-- The Boolean `ltLowerBand` decides exactly the real comparison
`close < sma20 − 2·√var20` used by the source (line 51 + line 101). -/
theorem ltLowerBand_eq_true_iff (c s v : ℚ) (hv : (0 : ℚ) ≤ v) :
    ltLowerBand c (some s) (some v) = true ↔
      (c : ℝ) < (s : ℝ) - 2 * Real.sqrt (v : ℝ) := by
  have hv' : (0 : ℝ) ≤ (v : ℝ) := by exact_mod_cast hv
  have h4 : Real.sqrt (4 * (v : ℝ)) = 2 * Real.sqrt (v : ℝ) := by
    rw [show (4 : ℝ) * (v : ℝ) = 2 ^ 2 * (v : ℝ) by ring,
      Real.sqrt_mul (by positivity) (v : ℝ), Real.sqrt_sq (by norm_num : (0 : ℝ) ≤ 2)]
  simp only [ltLowerBand, decide_eq_true_eq]
  constructor
  · rintro ⟨h1, h2⟩
    have hy : (0 : ℝ) < (s : ℝ) - (c : ℝ) := by
      have : (c : ℝ) < (s : ℝ) := by exact_mod_cast h1
      linarith
    have h2' : 4 * (v : ℝ) < ((s : ℝ) - (c : ℝ)) ^ 2 := by exact_mod_cast h2
    have h3 := (Real.sqrt_lt' hy).mpr h2'
    rw [h4] at h3
    linarith
  · intro h
    have hs0 : (0 : ℝ) ≤ Real.sqrt (v : ℝ) := Real.sqrt_nonneg _
    have hy : (0 : ℝ) < (s : ℝ) - (c : ℝ) := by linarith
    have h2 : Real.sqrt (4 * (v : ℝ)) < (s : ℝ) - (c : ℝ) := by rw [h4]; linarith
    have h3 := (Real.sqrt_lt' hy).mp h2
    refine ⟨by exact_mod_cast (show (c : ℝ) < (s : ℝ) by linarith), by exact_mod_cast h3⟩

/-- The Boolean `gtUpperBand` decides exactly the real comparison
`close > sma20 + 2·√var20` used by the source (line 50 + line 102). -/
theorem gtUpperBand_eq_true_iff (c s v : ℚ) (hv : (0 : ℚ) ≤ v) :
    gtUpperBand c (some s) (some v) = true ↔
      (s : ℝ) + 2 * Real.sqrt (v : ℝ) < (c : ℝ) := by
  have hv' : (0 : ℝ) ≤ (v : ℝ) := by exact_mod_cast hv
  have h4 : Real.sqrt (4 * (v : ℝ)) = 2 * Real.sqrt (v : ℝ) := by
    rw [show (4 : ℝ) * (v : ℝ) = 2 ^ 2 * (v : ℝ) by ring,
      Real.sqrt_mul (by positivity) (v : ℝ), Real.sqrt_sq (by norm_num : (0 : ℝ) ≤ 2)]
  simp only [gtUpperBand, decide_eq_true_eq]
  constructor
  · rintro ⟨h1, h2⟩
    have hy : (0 : ℝ) < (c : ℝ) - (s : ℝ) := by
      have : (s : ℝ) < (c : ℝ) := by exact_mod_cast h1
      linarith
    have h2' : 4 * (v : ℝ) < ((c : ℝ) - (s : ℝ)) ^ 2 := by exact_mod_cast h2
    have h3 := (Real.sqrt_lt' hy).mpr h2'
    rw [h4] at h3
    linarith
  · intro h
    have hs0 : (0 : ℝ) ≤ Real.sqrt (v : ℝ) := Real.sqrt_nonneg _
    have hy : (0 : ℝ) < (c : ℝ) - (s : ℝ) := by linarith
    have h2 : Real.sqrt (4 * (v : ℝ)) < (c : ℝ) - (s : ℝ) := by rw [h4]; linarith
    have h3 := (Real.sqrt_lt' hy).mp h2
    refine ⟨by exact_mod_cast (show (s : ℝ) < (c : ℝ) by linarith), by exact_mod_cast h3⟩

/-! ### Shape lemmas for one step of the walk -/

/-- Bars with a NaN `sma20` or `atr20` are skipped unchanged. -/
theorem step_skip (am : Option ℚ) (s : SimState) (r : IBar)
    (hna : (r.sma20.isNone || r.atr20.isNone) = true) : step am s r = s := by
  unfold step
  rw [if_pos hna]

/-- With an open position and a firing exit, the step closes the trade:
the log grows by exactly the emitted record, equity absorbs its P&L, and
the position is cleared. -/
theorem step_close (am : Option ℚ) (s : SimState) (p : Position) (r : IBar) (e : ℚ)
    (hop : s.openTrade = some p)
    (hna : (r.sma20.isNone || r.atr20.isNone) = false)
    (he : exitPrice p r = some e) :
    step am s r =
      { equity := s.equity + (closeTrade p r.time e).pnl
        openTrade := none
        log := s.log ++ [closeTrade p r.time e] } := by
  unfold step
  rw [hna, hop]
  simp [he]

/-- With an open position and no firing exit, the step is the identity. -/
theorem step_hold (am : Option ℚ) (s : SimState) (p : Position) (r : IBar)
    (hop : s.openTrade = some p)
    (hna : (r.sma20.isNone || r.atr20.isNone) = false)
    (he : exitPrice p r = none) : step am s r = s := by
  unfold step
  rw [hna, hop]
  simp [he]

/-- From flat, with both gates and an entry signal, the step opens the
position built by `openPos`. -/
theorem step_open (am : Option ℚ) (s : SimState) (r : IBar) (sd : Side) (a : ℚ)
    (hop : s.openTrade = none)
    (hna : (r.sma20.isNone || r.atr20.isNone) = false)
    (hgate : (asiaHour (hourOf r.time) && oGtQ r.atr20 am) = true)
    (hatr : r.atr20 = some a)
    (hsig : entrySignal r = some sd) :
    step am s r = { s with openTrade := some (openPos r sd a) } := by
  unfold step
  rw [hna, hop]
  rw [hatr] at hgate
  simp [hatr, hsig, hgate]

/-- Exhaustive shape analysis of one step: it leaves the state unchanged,
opens a position from flat, or closes the open position. -/
theorem step_cases (am : Option ℚ) (s : SimState) (r : IBar) :
    step am s r = s ∨
    (s.openTrade = none ∧ ∃ sd a, r.atr20 = some a ∧ entrySignal r = some sd ∧
      step am s r = { s with openTrade := some (openPos r sd a) }) ∨
    (∃ p e, s.openTrade = some p ∧ exitPrice p r = some e ∧
      step am s r =
        { equity := s.equity + (closeTrade p r.time e).pnl
          openTrade := none
          log := s.log ++ [closeTrade p r.time e] }) := by
  by_cases hna : (r.sma20.isNone || r.atr20.isNone) = true
  · exact Or.inl (step_skip am s r hna)
  · rw [Bool.not_eq_true] at hna
    cases hop : s.openTrade with
    | none =>
      by_cases hgate : (asiaHour (hourOf r.time) && oGtQ r.atr20 am) = true
      · cases hatr : r.atr20 with
        | none =>
          exfalso
          rw [hatr] at hna
          simp at hna
        | some a =>
          cases hsig : entrySignal r with
          | none =>
            refine Or.inl ?_
            unfold step
            rw [hna, hop]
            rw [hatr] at hgate
            simp [hatr, hsig, hgate]
          | some sd =>
            exact Or.inr (Or.inl ⟨rfl, sd, a, rfl, rfl,
              step_open am s r sd a hop hna hgate hatr hsig⟩)
      · refine Or.inl ?_
        unfold step
        rw [hna, hop]
        rw [Bool.not_eq_true] at hgate
        simp [hgate]
    | some p =>
      cases he : exitPrice p r with
      | none => exact Or.inl (step_hold am s p r hop hna he)
      | some e => exact Or.inr (Or.inr ⟨p, e, rfl, he, step_close am s p r e hop hna he⟩)

/-- An exit price returned for a bar is the stop, the target, or — exactly
when the session force-exit condition holds — the bar close. -/
theorem exitPrice_shape (p : Position) (r : IBar) (e : ℚ)
    (h : exitPrice p r = some e) :
    e = p.stop ∨ e = p.target ∨
      (e = r.close ∧ (usHour (hourOf r.time) && !asiaHour (hourOf r.time)) = true) := by
  unfold exitPrice at h
  split at h
  · exact Or.inr (Or.inr ⟨(Option.some.inj h).symm, by assumption⟩)
  · split at h
    · split at h
      · exact Or.inl (Option.some.inj h).symm
      · split at h
        · exact Or.inr (Or.inl (Option.some.inj h).symm)
        · exact absurd h (by simp)
    · split at h
      · exact Or.inl (Option.some.inj h).symm
      · split at h
        · exact Or.inr (Or.inl (Option.some.inj h).symm)
        · exact absurd h (by simp)

/-! ### Properties of the timestamp sort -/

/-- Inserting is a permutation of consing. -/
theorem insertK_perm {α : Type} (key : α → ℤ) (x : α) (l : List α) :
    List.Perm (insertK key x l) (x :: l) := by
  induction l with
  | nil => exact List.Perm.refl _
  | cons y ys ih =>
    unfold insertK
    split
    · exact List.Perm.refl _
    · exact (ih.cons y).trans (List.Perm.swap x y ys)

/-- The timestamp sort permutes its input: every row is kept (duplicates
included), none is added. -/
theorem sortK_perm {α : Type} (key : α → ℤ) (l : List α) :
    List.Perm (sortK key l) l := by
  induction l with
  | nil => exact List.Perm.refl _
  | cons x xs ih =>
    unfold sortK
    simp only [List.foldr_cons]
    exact (insertK_perm key x _).trans (ih.cons x)

/-- Membership in an insert. -/
theorem mem_insertK {α : Type} (key : α → ℤ) (x a : α) (l : List α) :
    a ∈ insertK key x l ↔ a = x ∨ a ∈ l := by
  rw [(insertK_perm key x l).mem_iff]
  simp

/-- Inserting preserves key-sortedness. -/
theorem insertK_sorted {α : Type} (key : α → ℤ) (x : α) (l : List α)
    (h : List.Pairwise (fun a b => key a ≤ key b) l) :
    List.Pairwise (fun a b => key a ≤ key b) (insertK key x l) := by
  induction l with
  | nil => simp [insertK]
  | cons y ys ih =>
    rw [List.pairwise_cons] at h
    unfold insertK
    split
    · rename_i hxy
      refine List.pairwise_cons.mpr ⟨?_, List.pairwise_cons.mpr h⟩
      intro b hb
      rcases List.mem_cons.mp hb with hb | hb
      · subst hb
        exact hxy
      · exact le_trans hxy (h.1 b hb)
    · rename_i hxy
      push_neg at hxy
      refine List.pairwise_cons.mpr ⟨?_, ih h.2⟩
      intro b hb
      rcases (mem_insertK key x b ys).mp hb with hb | hb
      · exact hb ▸ le_of_lt hxy
      · exact h.1 b hb

/-- The timestamp sort produces a key-sorted list. -/
theorem sortK_sorted {α : Type} (key : α → ℤ) (l : List α) :
    List.Pairwise (fun a b => key a ≤ key b) (sortK key l) := by
  induction l with
  | nil => simp [sortK]
  | cons x xs ih =>
    unfold sortK
    simp only [List.foldr_cons]
    exact insertK_sorted key x _ ih

/-- Sorting a strictly key-increasing list is the identity. -/
theorem sortK_eq_self {α : Type} (key : α → ℤ) (l : List α)
    (h : List.Pairwise (fun a b => key a < key b) l) :
    sortK key l = l := by
  induction l with
  | nil => rfl
  | cons x xs ih =>
    rw [List.pairwise_cons] at h
    have hx : sortK key xs = xs := ih h.2
    unfold sortK
    simp only [List.foldr_cons]
    show insertK key x (sortK key xs) = x :: xs
    rw [hx]
    cases xs with
    | nil => rfl
    | cons y ys =>
      unfold insertK
      rw [if_pos (le_of_lt (h.1 y (by simp)))]

/-! ### Running-equity helpers -/

/-- Length of a running-total list. -/
theorem cumsumFrom_length (init : ℚ) (ps : List ℚ) :
    (cumsumFrom init ps).length = ps.length := by
  induction ps generalizing init with
  | nil => rfl
  | cons p ps ih => simp [cumsumFrom, ih]

/-- The last running total is the initial value plus the whole sum. -/
theorem cumsumFrom_getLast? (init : ℚ) (ps : List ℚ) (h : ps ≠ []) :
    (cumsumFrom init ps).getLast? = some (init + ps.sum) := by
  induction ps generalizing init with
  | nil => exact absurd rfl h
  | cons p ps ih =>
    cases ps with
    | nil => simp [cumsumFrom]
    | cons q qs =>
      have h2 : cumsumFrom init (p :: q :: qs) =
          [init + p] ++ cumsumFrom (init + p) (q :: qs) := rfl
      rw [h2, List.getLast?_append_of_ne_nil _ (by simp [cumsumFrom]),
        ih (init + p) (by simp)]
      simp only [List.sum_cons]
      ring_nf

/-- Dropping strictly fewer elements than the length keeps the last one. -/
theorem getLast?_drop {α : Type} (l : List α) (n : ℕ) (h : n < l.length) :
    (l.drop n).getLast? = l.getLast? := by
  induction l generalizing n with
  | nil => simp at h
  | cons x xs ih =>
    cases n with
    | zero => rfl
    | succ m =>
      simp only [List.length_cons, Nat.succ_lt_succ_iff] at h
      rw [List.drop_succ_cons, ih m h]
      have hne : xs ≠ [] := by
        intro hx
        rw [hx] at h
        simp at h
      rw [show x :: xs = [x] ++ xs from rfl, List.getLast?_append_of_ne_nil _ hne]

/-! ### Walk invariants -/

/-- Fold invariant: if the accumulated log satisfies `TradeOK` and any
open position was entered strictly before every remaining bar, every
trade in the final log satisfies `TradeOK` (bars strictly increasing). -/
theorem walk_log_ok (am : Option ℚ) (bars0 : List IBar) :
    ∀ (l : List IBar) (s : SimState),
      (∀ x ∈ l, x ∈ bars0) →
      List.Pairwise (fun a b : IBar => a.time < b.time) l →
      (∀ t ∈ s.log, TradeOK bars0 t) →
      (∀ p, s.openTrade = some p → ∀ x ∈ l, p.entry_time < x.time) →
      ∀ t ∈ (l.foldl (step am) s).log, TradeOK bars0 t := by
  intro l
  induction l with
  | nil =>
    intro s _ _ hlog _ t ht
    exact hlog t ht
  | cons r l ih =>
    intro s hsub hpw hlog hopen
    rw [List.foldl_cons]
    rw [List.pairwise_cons] at hpw
    have hrmem : r ∈ bars0 := hsub r (by simp)
    have hsub' : ∀ x ∈ l, x ∈ bars0 := fun x hx => hsub x (by simp [hx])
    rcases step_cases am s r with h | ⟨hflat, sd, a, hatr, hsig, h⟩ | ⟨p, e, hop, he, h⟩
    · rw [h]
      exact ih s hsub' hpw.2 hlog fun p hp x hx => hopen p hp x (by simp [hx])
    · rw [h]
      refine ih _ hsub' hpw.2 hlog ?_
      intro p hp x hx
      simp only [Option.some.injEq] at hp
      have hpe : p.entry_time = r.time := by rw [← hp]; rfl
      rw [hpe]
      exact hpw.1 x hx
    · rw [h]
      refine ih _ hsub' hpw.2 ?_ ?_
      · intro t ht
        rcases List.mem_append.mp ht with ht | ht
        · exact hlog t ht
        · have ht' : t = closeTrade p r.time e := by simpa using ht
          subst ht'
          refine ⟨hopen p hop r (by simp), ?_⟩
          rcases exitPrice_shape p r e he with hE | hE | ⟨hE, hcond⟩
          · exact Or.inl (by simp [closeTrade, hE])
          · exact Or.inr (Or.inl (by simp [closeTrade, hE]))
          · exact Or.inr (Or.inr ⟨r, hrmem, rfl, by simp [closeTrade, hE], hcond⟩)
      · intro p' hp'
        simp at hp'

/-- Fold invariant: equity stays equal to the initial capital plus the
sum of the logged trades' P&L. -/
theorem walk_equity (am : Option ℚ) :
    ∀ (l : List IBar) (s : SimState),
      s.equity = INITIAL_EQ + (s.log.map Trade.pnl).sum →
      (l.foldl (step am) s).equity =
        INITIAL_EQ + ((l.foldl (step am) s).log.map Trade.pnl).sum := by
  intro l
  induction l with
  | nil => intro s h; exact h
  | cons r l ih =>
    intro s h
    rw [List.foldl_cons]
    refine ih (step am s r) ?_
    rcases step_cases am s r with hs | ⟨_, sd, a, _, _, hs⟩ | ⟨p, e, _, _, hs⟩
    · rw [hs]; exact h
    · rw [hs]; exact h
    · rw [hs]
      simp only [List.map_append, List.sum_append, List.map_cons, List.map_nil,
        List.sum_cons, List.sum_nil]
      rw [h]
      ring

/-! ### Claim theorems -/

/-- Claim C1 (amended): during the simulation walk a position can only be
opened on a bar whose hour-of-day is in the Asia-session set and whose
`atr20` exceeds the scalar threshold `atr_med` passed to the walk — and
the pipeline passes the median of the whole `atr20` column for that
threshold (a single full-history value, not the per-bar expanding
median, which is only computed for the display conditions). -/
theorem entry_gate_session_and_global_median (am : Option ℚ) (s : SimState) (r : IBar)
    (hflat : s.openTrade = none) :
    (∀ p, (step am s r).openTrade = some p →
      asiaHour (hourOf r.time) = true ∧ oGtQ r.atr20 am = true) ∧
    (∀ rows : List RawBar,
      mainPipeline rows =
        runBacktest (calculateIndicators (loadData rows)) (atrGlobalMedian (loadData rows))) := by
  constructor
  · intro p hp
    by_cases hna : (r.sma20.isNone || r.atr20.isNone) = true
    · rw [step_skip am s r hna, hflat] at hp
      exact absurd hp (by simp)
    · rw [Bool.not_eq_true] at hna
      by_cases hgate : (asiaHour (hourOf r.time) && oGtQ r.atr20 am) = true
      · rw [Bool.and_eq_true] at hgate
        exact hgate
      · exfalso
        unfold step at hp
        rw [hna, hflat] at hp
        rw [Bool.not_eq_true] at hgate
        rw [hgate] at hp
        simp at hp
        rw [hflat] at hp
        exact Option.noConfusion hp
  · intro rows
    rfl

/-- Claim C2: with a position open on a non-skipped bar, the step closes
exactly when `exitPrice` fires, and `exitPrice` resolves with the fixed
priority: session force-exit at the bar close first; otherwise for a
long the stop (bar low ≤ stop) is checked before the target (bar high ≥
target), mirrored for a short — so when both are intrabar-reachable the
trade closes at the stop price. -/
theorem exit_priority_session_stop_target (am : Option ℚ) (s : SimState) (p : Position)
    (r : IBar) (hop : s.openTrade = some p)
    (hna : (r.sma20.isNone || r.atr20.isNone) = false) :
    (∀ e, exitPrice p r = some e →
      step am s r =
        { equity := s.equity + (closeTrade p r.time e).pnl
          openTrade := none
          log := s.log ++ [closeTrade p r.time e] }) ∧
    (exitPrice p r = none → step am s r = s) ∧
    ((usHour (hourOf r.time) && !asiaHour (hourOf r.time)) = true →
      exitPrice p r = some r.close) ∧
    ((usHour (hourOf r.time) && !asiaHour (hourOf r.time)) = false →
      (p.side = Side.long →
        (r.low ≤ p.stop → exitPrice p r = some p.stop) ∧
        (p.stop < r.low → p.target ≤ r.high → exitPrice p r = some p.target) ∧
        (p.stop < r.low → r.high < p.target → exitPrice p r = none)) ∧
      (p.side = Side.short →
        (p.stop ≤ r.high → exitPrice p r = some p.stop) ∧
        (r.high < p.stop → r.low ≤ p.target → exitPrice p r = some p.target) ∧
        (r.high < p.stop → p.target < r.low → exitPrice p r = none))) := by
  refine ⟨fun e he => step_close am s p r e hop hna he,
    fun he => step_hold am s p r hop hna he, fun h => ?_, fun h => ⟨fun hlong => ?_, fun hshort => ?_⟩⟩
  · unfold exitPrice
    simp [h]
  · refine ⟨fun h1 => ?_, fun h1 h2 => ?_, fun h1 h2 => ?_⟩
    · simp [exitPrice, h, hlong, h1]
    · simp [exitPrice, h, hlong, not_le.mpr h1, h2]
    · simp [exitPrice, h, hlong, not_le.mpr h1, not_le.mpr h2]
  · refine ⟨fun h1 => ?_, fun h1 h2 => ?_, fun h1 h2 => ?_⟩
    · simp [exitPrice, h, hshort, h1]
    · simp [exitPrice, h, hshort, not_le.mpr h1, h2]
    · simp [exitPrice, h, hshort, not_le.mpr h1, not_le.mpr h2]

/-- Claim C3: within a single step of the walk at most one position ever
exists (the state holds one optional position; from a held position the
step can only keep it or clear it, never replace it), a bar processed
while flat never emits a closed trade, and a bar that emits a closed
trade ends flat — so closing and opening are mutually exclusive within
one bar and there is no same-bar re-entry. -/
theorem single_position_open_close_exclusive (am : Option ℚ) (s : SimState) (r : IBar) :
    ((step am s r).log = s.log ∨ ∃ t, (step am s r).log = s.log ++ [t]) ∧
    (s.openTrade = none → (step am s r).log = s.log) ∧
    (∀ p, s.openTrade = some p →
      (step am s r).openTrade = some p ∨ (step am s r).openTrade = none) ∧
    ((step am s r).log ≠ s.log → (step am s r).openTrade = none) := by
  rcases step_cases am s r with h | ⟨hflat, sd, a, hatr, hsig, h⟩ | ⟨p, e, hop, he, h⟩
  · rw [h]
    exact ⟨Or.inl rfl, fun _ => rfl, fun p hp => Or.inl hp, fun hne => absurd rfl hne⟩
  · rw [h]
    refine ⟨Or.inl rfl, fun _ => rfl, fun p hp => ?_, fun hne => absurd rfl hne⟩
    rw [hflat] at hp
    exact Option.noConfusion hp
  · rw [h]
    refine ⟨Or.inr ⟨closeTrade p r.time e, rfl⟩, fun hf => ?_, fun q hq => Or.inr rfl,
      fun _ => rfl⟩
    rw [hf] at hop
    exact Option.noConfusion hop

/-- Claim C4: a position opened from flat has entry price the bar close,
stop at `entry·(1 ∓ STOP_PCT)` by side, target at
`entry ± ATR_MULT·atr20` by side, size `risk_amount/unit risk` with
`risk_amount = INITIAL_EQ·RISK_PCT_INIT`, and a zero unit risk yields
size 0 while the position is still opened whenever the gates and an
entry signal hold. -/
theorem entry_transition_fields (am : Option ℚ) (s : SimState) (r : IBar)
    (hflat : s.openTrade = none) :
    (∀ p a, (step am s r).openTrade = some p → r.atr20 = some a →
      p.entry_price = r.close ∧
      p.stop = (if p.side = Side.long then r.close * (1 - STOP_PCT)
                else r.close * (1 + STOP_PCT)) ∧
      p.target = (if p.side = Side.long then r.close + ATR_MULT * a
                  else r.close - ATR_MULT * a) ∧
      p.size = (if 0 < |r.close - p.stop| then riskAmount / |r.close - p.stop| else 0) ∧
      (|r.close - p.stop| = 0 → p.size = 0)) ∧
    (∀ sd a, (r.sma20.isNone || r.atr20.isNone) = false →
      (asiaHour (hourOf r.time) && oGtQ r.atr20 am) = true →
      r.atr20 = some a → entrySignal r = some sd →
      (step am s r).openTrade = some (openPos r sd a)) ∧
    riskAmount = INITIAL_EQ * RISK_PCT_INIT := by
  refine ⟨?_, ?_, rfl⟩
  · intro p a hp hatr
    rcases step_cases am s r with h | ⟨_, sd, a0, hatr0, hsig, h⟩ | ⟨q, e, hop, he, h⟩
    · rw [h, hflat] at hp
      exact absurd hp (by simp)
    · rw [h] at hp
      simp only [Option.some.injEq] at hp
      have ha0 : a0 = a := by
        rw [hatr0] at hatr
        exact Option.some.inj hatr
      subst ha0
      subst hp
      cases sd with
      | long =>
        refine ⟨rfl, rfl, rfl, rfl, fun h0 => ?_⟩
        have hs : (openPos r Side.long a0).size =
            (if 0 < |r.close - (openPos r Side.long a0).stop| then
              riskAmount / |r.close - (openPos r Side.long a0).stop| else 0) := rfl
        rw [hs, h0]
        simp
      | short =>
        refine ⟨rfl, rfl, rfl, rfl, fun h0 => ?_⟩
        have hs : (openPos r Side.short a0).size =
            (if 0 < |r.close - (openPos r Side.short a0).stop| then
              riskAmount / |r.close - (openPos r Side.short a0).stop| else 0) := rfl
        rw [hs, h0]
        simp
    · rw [hop] at hflat
      exact Option.noConfusion hflat
  · intro sd a hna hgate hatr hsig
    rw [step_open am s r sd a hflat hna hgate hatr hsig]

/-- Claim C5: when the input bars have strictly increasing timestamps,
every closed trade exits strictly after its entry, and its exit price is
its stop, its target, or the close of the (session-exit) bar it closed
on — never any other value. -/
theorem closed_trade_times_and_exit_shape (rows : List IBar) (am : Option ℚ)
    (hsorted : List.Pairwise (fun a b : IBar => a.time < b.time) rows) :
    ∀ t ∈ (runBacktest rows am).log,
      t.entry_time < t.exit_time ∧
      (t.exit_price = t.stop ∨ t.exit_price = t.target ∨
        ∃ x ∈ rows, x.time - 8 = t.exit_time ∧ x.close = t.exit_price ∧
          (usHour (hourOf (x.time - 8)) && !asiaHour (hourOf (x.time - 8))) = true) := by
  have hmap : List.Pairwise (fun a b : IBar => a.time < b.time) (rows.map shiftUTC) := by
    rw [List.pairwise_map]
    refine hsorted.imp ?_
    intro a b hab
    show (shiftUTC a).time < (shiftUTC b).time
    simp only [shiftUTC]
    omega
  intro t ht
  unfold runBacktest at ht
  rw [sortK_eq_self IBar.time _ hmap] at ht
  have hok := walk_log_ok am (rows.map shiftUTC) (rows.map shiftUTC) initState
    (fun x hx => hx) hmap (fun t ht => absurd ht (by simp [initState]))
    (fun p hp => absurd hp (by simp [initState])) t ht
  refine ⟨hok.1, ?_⟩
  rcases hok.2 with h | h | ⟨x, hx, h1, h2, h3⟩
  · exact Or.inl h
  · exact Or.inr (Or.inl h)
  · rcases List.mem_map.mp hx with ⟨y, hy, rfl⟩
    exact Or.inr (Or.inr ⟨y, hy, h1, h2, h3⟩)

/-- Claim C6: the final equity of the walk equals the initial capital
plus the sum of all logged trades' P&L, and (when any trade closed) the
last value of the index-based equity curve equals that final equity. -/
theorem final_equity_conservation (rows : List IBar) (am : Option ℚ) :
    (runBacktest rows am).equity =
      INITIAL_EQ + ((runBacktest rows am).log.map Trade.pnl).sum ∧
    ((runBacktest rows am).log ≠ [] →
      (equityCurve (runBacktest rows am).log).getLast? =
        some ((runBacktest rows am).equity)) := by
  have h1 : (runBacktest rows am).equity =
      INITIAL_EQ + ((runBacktest rows am).log.map Trade.pnl).sum := by
    unfold runBacktest
    exact walk_equity am _ initState (by simp [initState])
  refine ⟨h1, fun hne => ?_⟩
  have hpnl : (runBacktest rows am).log.map Trade.pnl ≠ [] := by
    simpa using hne
  have hlen : 0 < (eqArray ((runBacktest rows am).log.map Trade.pnl)).length := by
    unfold eqArray
    rw [cumsumFrom_length]
    exact List.length_pos.mpr hpnl
  unfold equityCurve lastN
  rw [getLast?_drop _ _ (Nat.sub_lt hlen (by norm_num))]
  unfold eqArray
  rw [cumsumFrom_getLast? _ _ hpnl, h1]

/-- Claim C7 (amended): the loader performs no timestamp validation — it
returns a permutation of the input rows (duplicates retained, nothing
dropped, same length) sorted into ascending timestamp order, and the run
proceeds normally. -/
theorem load_data_sorts_and_keeps_all (rows : List RawBar) :
    List.Perm (loadData rows) rows ∧
    List.Pairwise (fun a b : RawBar => a.time ≤ b.time) (loadData rows) ∧
    (loadData rows).length = rows.length :=
  ⟨sortK_perm _ rows, sortK_sorted _ rows, (sortK_perm _ rows).length_eq⟩

/-- Claim C8: the 7/30/90-day windowed trade subsets, filtered by exit
timestamp at least the latest exit minus the window, are nested, and all
are contained in the full trade log. -/
theorem windowed_trades_nested (log : List Trade) :
    (∀ t, t ∈ windowTrades log 7 → t ∈ windowTrades log 30) ∧
    (∀ t, t ∈ windowTrades log 30 → t ∈ windowTrades log 90) ∧
    (∀ t, t ∈ windowTrades log 90 → t ∈ log) := by
  refine ⟨fun t ht => ?_, fun t ht => ?_, fun t ht => ?_⟩
  · unfold windowTrades at ht ⊢
    rw [List.mem_filter] at ht ⊢
    refine ⟨ht.1, ?_⟩
    have h := of_decide_eq_true ht.2
    exact decide_eq_true (by omega)
  · unfold windowTrades at ht ⊢
    rw [List.mem_filter] at ht ⊢
    refine ⟨ht.1, ?_⟩
    have h := of_decide_eq_true ht.2
    exact decide_eq_true (by omega)
  · unfold windowTrades at ht
    exact (List.mem_filter.mp ht).1

/-- Claim C9: when the 14-bar average loss is zero the RSI expression
divides by zero: under IEEE semantics the quotient `gain/0` is a
non-finite artifact (`+inf`, or `NaN` when the average gain is also 0),
and no guard intervenes — the artifact propagates through
`100 − 100/(1 + gain/loss)`, collapsing to the float 100.0 when gain is
positive and to `NaN` otherwise, which is exactly the possibly-NaN value
the signal conditions then consume. -/
theorem rsi_zero_avg_loss_artifact (g : ℚ) (hg : 0 ≤ g) :
    (fdiv (FVal.fin g) (FVal.fin 0)).isFinite = false ∧
    (fdiv (FVal.fin g) (FVal.fin 0) = FVal.inf ∨
      fdiv (FVal.fin g) (FVal.fin 0) = FVal.nan) ∧
    rsi14f (FVal.fin g) (FVal.fin 0) = (if g = 0 then FVal.nan else FVal.fin 100) ∧
    rsiFromAverages g 0 = fvalToOpt (rsi14f (FVal.fin g) (FVal.fin 0)) := by
  rcases eq_or_lt_of_le hg with h0 | h0
  · rw [← h0]
    refine ⟨rfl, Or.inr rfl, ?_, ?_⟩
    · simp [rsi14f, fdiv, fadd, fsub]
    · simp [rsiFromAverages, rsi14f, fdiv, fadd, fsub, fvalToOpt]
  · have hne : g ≠ 0 := ne_of_gt h0
    have hdiv : fdiv (FVal.fin g) (FVal.fin 0) = FVal.inf := by
      simp [fdiv, h0]
    refine ⟨by rw [hdiv]; rfl, Or.inl hdiv, ?_, ?_⟩
    · rw [if_neg hne]
      unfold rsi14f
      rw [hdiv]
      simp [fadd, fdiv, fsub]
    · unfold rsi14f
      rw [hdiv]
      simp [rsiFromAverages, hne, fadd, fdiv, fsub, fvalToOpt]

/-! ### Concrete evaluations (counterexamples and witnesses).
The rational-arithmetic primitives are irreducible by default, which
blocks `decide`-style evaluation; they are made semireducible locally. -/

section ConcreteEvaluations

attribute [local semireducible] Rat.mul Rat.add Rat.sub Rat.inv

set_option maxRecDepth 400000

/-- Claim C1 counterexample: on `exRaw` (already sorted, so the loader is
the identity) the full pipeline opens a position at UTC time 11 — the
bar of raw row 19 (GMT+8 time 19) — even though that bar's `atr20` does
NOT exceed its expanding (all-history-to-date) ATR median; the walk
entered because `atr20` exceeds the full-series scalar median instead. -/
theorem entry_despite_expanding_median_gate_failure :
    loadData exRaw = exRaw ∧
    (mainPipeline exRaw).log.map Trade.entry_time = [11] ∧
    (exRaw.get? 19).map RawBar.time = some 19 ∧
    oGtQ (atr20At exRaw 19) (atrGlobalMedian exRaw) = true ∧
    oLeQ (atr20At exRaw 19) (expMedAt exRaw 19) = true := by
  refine ⟨by decide, by decide, by decide, by decide, by decide⟩

/-- Claim C7 counterexample: out-of-order timestamps are silently sorted
and duplicate timestamps are silently retained — in both cases the
pipeline runs to a normal final state instead of rejecting the input. -/
theorem duplicate_and_unordered_timestamps_not_rejected :
    exOOO.map RawBar.time = [5, 3] ∧
    (loadData exOOO).map RawBar.time = [3, 5] ∧
    loadData exOOO ≠ exOOO ∧
    exDup.map RawBar.time = [4, 4] ∧
    loadData exDup = exDup ∧
    mainPipeline exOOO = initState ∧
    mainPipeline exDup = initState := by
  refine ⟨by decide, by decide, by decide, by decide, by decide, by decide, by decide⟩

/-- Claim C10: every emitted ClosedTrade record computes its P&L from the
position's full-precision size while logging the `int()`-truncated size,
and (on the concrete `exRaw` run) there is a trade whose logged P&L
differs from (exit − entry) × logged size. -/
theorem pnl_full_precision_size_truncated :
    (∀ (p : Position) (tm : ℤ) (e : ℚ),
      (closeTrade p tm e).pnl =
        (if p.side = Side.long then e - p.entry_price else p.entry_price - e) * p.size ∧
      (closeTrade p tm e).size = pyInt p.size) ∧
    (∀ (am : Option ℚ) (s : SimState) (p : Position) (r : IBar) (e : ℚ),
      s.openTrade = some p → (r.sma20.isNone || r.atr20.isNone) = false →
      exitPrice p r = some e →
      (step am s r).log = s.log ++ [closeTrade p r.time e]) ∧
    (∃ t ∈ (mainPipeline exRaw).log,
      t.pnl ≠ (t.exit_price - t.entry_price) * (t.size : ℚ)) := by
  refine ⟨fun p tm e => ⟨rfl, rfl⟩, fun am s p r e hop hna he => ?_, by decide⟩
  rw [step_close am s p r e hop hna he]

/-- Witness for claim C1's amended theorem at a concrete opening step. -/
theorem entry_gate_session_and_global_median_witness :
    asiaHour (hourOf wEntryBar.time) = true ∧ oGtQ wEntryBar.atr20 (some 1) = true :=
  (entry_gate_session_and_global_median (some 1) initState wEntryBar rfl).1
    (openPos wEntryBar Side.long 5) (by decide)

/-- Witness for claim C2 at a bar where both the stop and the target of
the open long are intrabar-reachable: the exit resolves to the stop. -/
theorem exit_priority_witness :
    exitPrice wPos wExitBar = some wPos.stop :=
  (((exit_priority_session_stop_target (some 1) wState wPos wExitBar rfl rfl).2.2.2
      (by decide)).1 rfl).1 (by decide)

/-- Witness for claim C3 at a concrete flat state: the bar emits no trade. -/
theorem single_position_witness :
    (step (some 1) initState wEntryBar).log = initState.log :=
  (single_position_open_close_exclusive (some 1) initState wEntryBar).2.1 rfl

/-- Witness for claim C4 at a degenerate bar with close 0: the position
is still opened and its size is 0. -/
theorem entry_transition_fields_witness :
    (step (some 1) initState wZeroBar).openTrade = some (openPos wZeroBar Side.long 5) ∧
    (openPos wZeroBar Side.long 5).size = 0 := by
  have h := (entry_transition_fields (some 1) initState wZeroBar rfl).2.1 Side.long 5
    (by decide) (by decide) rfl (by decide)
  refine ⟨h, ?_⟩
  exact ((entry_transition_fields (some 1) initState wZeroBar rfl).1
    (openPos wZeroBar Side.long 5) 5 h rfl).2.2.2.2 (by decide)

/-- Witness for claim C5 on a concrete strictly-sorted two-bar run. -/
theorem closed_trade_times_witness : wTrade.entry_time < wTrade.exit_time :=
  (closed_trade_times_and_exit_shape wRun (some 1) (by decide) wTrade (by decide)).1

/-- Witness for claim C6 on the same concrete run (nonempty trade log). -/
theorem final_equity_conservation_witness :
    (equityCurve (runBacktest wRun (some 1)).log).getLast? =
      some ((runBacktest wRun (some 1)).equity) :=
  (final_equity_conservation wRun (some 1)).2 (by decide)

/-- Witness for claim C8 on a concrete one-trade log. -/
theorem windowed_trades_nested_witness : wTrade ∈ windowTrades wLog 30 :=
  (windowed_trades_nested wLog).1 wTrade (by decide)

/-- Witness for claim C9 at average gain 1 and average loss 0. -/
theorem rsi_zero_avg_loss_artifact_witness :
    (fdiv (FVal.fin 1) (FVal.fin 0)).isFinite = false ∧
    rsi14f (FVal.fin 1) (FVal.fin 0) = FVal.fin 100 := by
  have h := rsi_zero_avg_loss_artifact 1 (by norm_num)
  refine ⟨h.1, ?_⟩
  have h2 := h.2.2.1
  rw [if_neg (by norm_num : (1 : ℚ) ≠ 0)] at h2
  exact h2

/-- Witness for claim C10's step-level conjunct at a concrete closing step. -/
theorem pnl_full_precision_size_truncated_witness :
    (step (some 1) wState wExitBar).log =
      wState.log ++ [closeTrade wPos wExitBar.time wPos.stop] :=
  pnl_full_precision_size_truncated.2.1 (some 1) wState wPos wExitBar wPos.stop
    rfl rfl (by decide)

end ConcreteEvaluations

end Btc
